import Mathlib

/-!
Verification of the Die-Plate-Designer geometry engine.

The definitions below are a shallow embedding of `src/die_perforation_6.py`
(the fullest of the three near-duplicate variants, and the one with the
degenerate-input guards the specification describes).  Machine floats are
modelled as real numbers; a Python run that raises `ZeroDivisionError` is
modelled as `none`.  Source line numbers cited in the doc comments refer to
`die_perforation_6.py`.
-/

namespace DiePlate

/-- Input snapshot collected by the UI shell (the sliders and number inputs,
source lines 12-34); `pcdValues` is the per-row pitch-circle-diameter list
built by the PCD loop. -/
structure DieParameters where
  pelletSize : ℝ
  dryMealThroughput : ℝ
  plateThickness : ℝ
  finalDiameter : ℝ
  coneDiameter : ℝ
  channelLength : ℝ
  totalHoles : ℕ
  numberOfRows : ℕ
  pcdValues : List ℝ

/-- Source line 37: `cone_length = plate_thickness - channel_length`. -/
noncomputable def cone_length (p : DieParameters) : ℝ :=
  p.plateThickness - p.channelLength

/-- Source line 38: `cone_radius = abs((cone_diameter - final_diameter) / 2)`. -/
noncomputable def cone_radius (p : DieParameters) : ℝ :=
  |(p.coneDiameter - p.finalDiameter) / 2|

/-- Source line 39: arctangent guarded on `cone_length > 0`, otherwise 0. -/
noncomputable def cone_angle_rad (p : DieParameters) : ℝ :=
  if 0 < cone_length p then Real.arctan (cone_radius p / cone_length p) else 0

/-- Source line 40: `np.degrees` multiplies by `180 / pi`. -/
noncomputable def cone_angle_deg (p : DieParameters) : ℝ :=
  cone_angle_rad p * (180 / Real.pi)

/-- Source line 41: `holes_per_row = int(total_holes / number_of_rows)`,
floor division of positive integers. -/
def holes_per_row (p : DieParameters) : ℕ :=
  p.totalHoles / p.numberOfRows

/-- Source line 42: `np.pi * (final_diameter / 2) ** 2`. -/
noncomputable def open_area_one_hole (p : DieParameters) : ℝ :=
  Real.pi * (p.finalDiameter / 2) ^ 2

/-- Source line 43: `open_area_one_hole * total_holes`. -/
noncomputable def total_open_area (p : DieParameters) : ℝ :=
  open_area_one_hole p * p.totalHoles

/-- Source line 44: `total_open_area / dry_meal_throughput`, with no guard on
the denominator. -/
noncomputable def open_area_per_tonne (p : DieParameters) : ℝ :=
  total_open_area p / p.dryMealThroughput

/-- Source line 45: expansion percentage, guarded on `pellet_size > 0`. -/
noncomputable def expansion (p : DieParameters) : ℝ :=
  if 0 < p.pelletSize then (1 - p.finalDiameter / p.pelletSize) * 100 else 0

/-- Source lines 48-53: for each row, `2 * np.pi * (pcd / 2) / holes_per_row -
final_diameter`, the edge-to-edge arc spacing. -/
noncomputable def space_between_holes_list (p : DieParameters) : List ℝ :=
  p.pcdValues.map fun pcd =>
    2 * Real.pi * (pcd / 2) / (holes_per_row p : ℝ) - p.finalDiameter

/-- Consecutive differences of a list, as `np.diff`. -/
def diffList (l : List ℝ) : List ℝ :=
  List.zipWith (fun a b => b - a) l l.tail

/-- Source line 56: `np.mean(np.diff(sorted(pcd_values)))` when there are at
least two rows, otherwise 0. -/
noncomputable def space_between_rows (l : List ℝ) : ℝ :=
  if 1 < l.length then
    (diffList (l.insertionSort (· ≤ ·))).sum /
      ((diffList (l.insertionSort (· ≤ ·))).length : ℝ)
  else 0

/-- Derived metrics record (the "Calculated Outputs" block of the app). -/
structure DieMetrics where
  coneLength : ℝ
  coneAngleDeg : ℝ
  holesPerRow : ℕ
  openAreaOneHole : ℝ
  totalOpenArea : ℝ
  openAreaPerTonne : ℝ
  expansionPercent : ℝ
  rowSpacing : List ℝ
  rowPitchGap : ℝ

/-- Metric fields, one per source expression (lines 37-56). -/
noncomputable def metricsOf (p : DieParameters) : DieMetrics where
  coneLength := cone_length p
  coneAngleDeg := cone_angle_deg p
  holesPerRow := holes_per_row p
  openAreaOneHole := open_area_one_hole p
  totalOpenArea := total_open_area p
  openAreaPerTonne := open_area_per_tonne p
  expansionPercent := expansion p
  rowSpacing := space_between_holes_list p
  rowPitchGap := space_between_rows p.pcdValues

/-- Engine entry point.  A Python run raises `ZeroDivisionError` exactly when an
unguarded division meets a zero denominator: `int(total_holes / number_of_rows)`
with `number_of_rows == 0`, `total_open_area / dry_meal_throughput` with
`dry_meal_throughput == 0`, or the row-spacing loop dividing by
`holes_per_row == 0` on a nonempty row list.  Those runs are modelled as
`none`; every other run returns all metrics. -/
noncomputable def computeMetrics (p : DieParameters) : Option DieMetrics :=
  if p.numberOfRows = 0 ∨ p.dryMealThroughput = 0 ∨
      (holes_per_row p = 0 ∧ p.pcdValues ≠ []) then none
  else some (metricsOf p)

/-- Source lines 81-88: the closed six-vertex half-section polygon. -/
noncomputable def cone_patch (p : DieParameters) : List (ℝ × ℝ) :=
  [(-p.coneDiameter / 2, 0), (-p.finalDiameter / 2, cone_length p),
   (-p.finalDiameter / 2, p.plateThickness), (p.finalDiameter / 2, p.plateThickness),
   (p.finalDiameter / 2, cone_length p), (p.coneDiameter / 2, 0)]

/-- Source lines 91-92: channel rectangle as (origin, width, height). -/
noncomputable def channel_patch (p : DieParameters) : (ℝ × ℝ) × ℝ × ℝ :=
  ((-p.finalDiameter / 2, cone_length p), p.finalDiameter, p.channelLength)

/-- Profile = half-section polygon plus channel rectangle. -/
noncomputable def buildProfile (p : DieParameters) : List (ℝ × ℝ) × ((ℝ × ℝ) × ℝ × ℝ) :=
  (cone_patch p, channel_patch p)

/-- Model of `np.linspace a b n`: `n` evenly spaced samples from `a` to `b`. -/
noncomputable def linspace (a b : ℝ) (n : ℕ) : List ℝ :=
  (List.range n).map fun (i : ℕ) => a + (b - a) * (i : ℝ) / ((n : ℝ) - 1)

/-- Source line 104: 30 depth samples across the cone. -/
noncomputable def z_cone (p : DieParameters) : List ℝ :=
  linspace 0 (cone_length p) 30

/-- Source line 110: linear taper radius per depth sample when
`cone_length > 0`, otherwise `np.full_like(z_cone, final_diameter / 2)`. -/
noncomputable def r_cone (p : DieParameters) : List ℝ :=
  if 0 < cone_length p then
    (z_cone p).map fun z =>
      p.coneDiameter / 2 - (p.coneDiameter - p.finalDiameter) / 2 * (z / cone_length p)
  else List.replicate 30 (p.finalDiameter / 2)

/-- Source line 105: 10 depth samples across the channel. -/
noncomputable def z_channel (p : DieParameters) : List ℝ :=
  linspace (cone_length p) p.plateThickness 10

/-- Source line 115: `np.full_like(z_channel, final_diameter / 2)`. -/
noncomputable def r_channel (p : DieParameters) : List ℝ :=
  List.replicate 10 (p.finalDiameter / 2)

/-- Source line 133: `angle = 2 * np.pi * i / holes_per_row`. -/
noncomputable def ring_angle (n i : ℕ) : ℝ :=
  2 * Real.pi * i / n

/-- Source lines 131-136: hole centres of one row of `n` holes on pitch
diameter `d`. -/
noncomputable def ring_row (d : ℝ) (n : ℕ) : List (ℝ × ℝ) :=
  (List.range n).map fun i =>
    ((d / 2) * Real.cos (ring_angle n i), (d / 2) * Real.sin (ring_angle n i))

/-- Source lines 130-137: every hole centre, uniform `holes_per_row` count on
each pitch circle. -/
noncomputable def buildRingLayout (p : DieParameters) : List (ℝ × ℝ) :=
  (p.pcdValues.map fun pcd => ring_row pcd (holes_per_row p)).flatten

/-- Worked parameter set: plate 20, channel 10, final diameter 10, cone
diameter 15, 100 holes in 5 rows, throughput 10, pellet size 5. -/
noncomputable def exampleParams : DieParameters where
  pelletSize := 5
  dryMealThroughput := 10
  plateThickness := 20
  finalDiameter := 10
  coneDiameter := 15
  channelLength := 10
  totalHoles := 100
  numberOfRows := 5
  pcdValues := [100]

/-- Successful runs of the engine return exactly the record of metric fields. -/
lemma computeMetrics_some {p : DieParameters} {m : DieMetrics}
    (h : computeMetrics p = some m) : m = metricsOf p := by
  unfold computeMetrics at h
  split at h
  · simp at h
  · exact (Option.some.inj h).symm

/-- C1: for `coneLength > 0` the cone angle is
`degrees(atan(|coneDiameter - finalDiameter| / 2 / coneLength))`, hence
non-negative and zero exactly when the two diameters agree; for
`coneLength ≤ 0` the guard returns 0 without raising. -/
theorem coneAngle_spec (p : DieParameters) (m : DieMetrics)
    (h : computeMetrics p = some m) :
    (0 < cone_length p →
      m.coneAngleDeg =
        (180 / Real.pi) *
          Real.arctan (|p.coneDiameter - p.finalDiameter| / 2 / cone_length p) ∧
      0 ≤ m.coneAngleDeg ∧
      (m.coneAngleDeg = 0 ↔ p.coneDiameter = p.finalDiameter)) ∧
    (cone_length p ≤ 0 → m.coneAngleDeg = 0) := by
  have hm := computeMetrics_some h
  subst hm
  constructor
  · intro hL
    have hne : cone_length p ≠ 0 := ne_of_gt hL
    have habs : |(p.coneDiameter - p.finalDiameter) / 2| =
        |p.coneDiameter - p.finalDiameter| / 2 := by
      rw [abs_div]
      norm_num
    have harctan : 0 ≤ Real.arctan (cone_radius p / cone_length p) := by
      have hx : 0 ≤ cone_radius p / cone_length p :=
        div_nonneg (abs_nonneg _) hL.le
      have := Real.arctan_strictMono.monotone hx
      rwa [Real.arctan_zero] at this
    refine ⟨?_, ?_, ?_⟩
    · simp only [metricsOf, cone_angle_deg, cone_angle_rad, cone_radius, if_pos hL, habs]
      ring
    · have hdeg : 0 ≤ 180 / Real.pi := div_nonneg (by norm_num) Real.pi_pos.le
      simpa [metricsOf, cone_angle_deg, cone_angle_rad, if_pos hL] using
        mul_nonneg harctan hdeg
    · simp only [metricsOf, cone_angle_deg, cone_angle_rad, cone_radius, if_pos hL,
        mul_eq_zero, Real.arctan_eq_zero_iff, div_eq_zero_iff, abs_eq_zero,
        sub_eq_zero]
      constructor
      · rintro (((hcf | h2) | hL0) | hpi)
        · exact hcf
        · exact absurd h2 (by norm_num)
        · exact absurd hL0 hne
        · exact absurd hpi (by
            have := Real.pi_ne_zero
            intro hc
            rcases hc with h180 | hpineg
            · exact absurd h180 (by norm_num)
            · exact this hpineg)
      · intro hcf
        exact Or.inl (Or.inl (Or.inl hcf))
  · intro hL
    have hne : ¬ 0 < cone_length p := not_lt.mpr hL
    simp [metricsOf, cone_angle_deg, cone_angle_rad, if_neg hne]

/-- Witness for C1 at the worked parameter set (cone length 10 > 0). -/
theorem coneAngle_spec_witness :
    computeMetrics exampleParams = some (metricsOf exampleParams) ∧
    ((0 < cone_length exampleParams →
        (metricsOf exampleParams).coneAngleDeg =
          (180 / Real.pi) *
            Real.arctan (|exampleParams.coneDiameter - exampleParams.finalDiameter| / 2 /
              cone_length exampleParams) ∧
        0 ≤ (metricsOf exampleParams).coneAngleDeg ∧
        ((metricsOf exampleParams).coneAngleDeg = 0 ↔
          exampleParams.coneDiameter = exampleParams.finalDiameter)) ∧
      (cone_length exampleParams ≤ 0 → (metricsOf exampleParams).coneAngleDeg = 0)) := by
  have h : computeMetrics exampleParams = some (metricsOf exampleParams) := by
    norm_num [computeMetrics, exampleParams, holes_per_row]
  exact ⟨h, coneAngle_spec exampleParams (metricsOf exampleParams) h⟩

/-- C2: the expansion percentage is `(1 - finalDiameter / pelletSize) * 100`
for positive pellet size and 0 otherwise. -/
theorem expansion_spec (p : DieParameters) (m : DieMetrics)
    (h : computeMetrics p = some m) :
    (0 < p.pelletSize →
      m.expansionPercent = (1 - p.finalDiameter / p.pelletSize) * 100) ∧
    (p.pelletSize ≤ 0 → m.expansionPercent = 0) := by
  have hm := computeMetrics_some h
  subst hm
  constructor
  · intro hp
    simp [metricsOf, expansion, if_pos hp]
  · intro hp
    simp [metricsOf, expansion, if_neg (not_lt.mpr hp)]

/-- Witness for C2: pellet size 5 and final diameter 10 give exactly -100. -/
theorem expansion_spec_witness :
    computeMetrics exampleParams = some (metricsOf exampleParams) ∧
    0 < exampleParams.pelletSize ∧
    (metricsOf exampleParams).expansionPercent = -100 := by
  have h : computeMetrics exampleParams = some (metricsOf exampleParams) := by
    norm_num [computeMetrics, exampleParams, holes_per_row]
  have h5 : (0 : ℝ) < exampleParams.pelletSize := by norm_num [exampleParams]
  refine ⟨h, h5, ?_⟩
  rw [(expansion_spec exampleParams (metricsOf exampleParams) h).1 h5]
  norm_num [exampleParams]

/-- Parameter set whose throughput is negative; every other denominator is
fine, so the engine runs to completion. -/
noncomputable def negThroughputParams : DieParameters where
  pelletSize := 5
  dryMealThroughput := -1
  plateThickness := 20
  finalDiameter := 2
  coneDiameter := 6
  channelLength := 10
  totalHoles := 1
  numberOfRows := 1
  pcdValues := [100]

/-- Parameter set with throughput exactly 0 (the unguarded division raises). -/
noncomputable def zeroThroughputParams : DieParameters where
  pelletSize := 5
  dryMealThroughput := 0
  plateThickness := 20
  finalDiameter := 2
  coneDiameter := 6
  channelLength := 10
  totalHoles := 1
  numberOfRows := 1
  pcdValues := [100]

/-- Counterexample to C3: with `dryMealThroughput = -1 ≤ 0` the engine does not
emit 0 for `openAreaPerTonne`; the unguarded division goes through and yields
`-pi` (final diameter 2, one hole). -/
theorem openAreaPerTonne_guard_cex :
    (computeMetrics negThroughputParams).map DieMetrics.openAreaPerTonne =
      some (-Real.pi) ∧
    negThroughputParams.dryMealThroughput ≤ 0 ∧ (-Real.pi : ℝ) ≠ 0 := by
  have h : computeMetrics negThroughputParams = some (metricsOf negThroughputParams) := by
    norm_num [computeMetrics, negThroughputParams, holes_per_row]
  refine ⟨?_, by norm_num [negThroughputParams],
    neg_ne_zero.mpr Real.pi_ne_zero⟩
  rw [h]
  simp [metricsOf, open_area_per_tonne, total_open_area, open_area_one_hole,
    negThroughputParams]
  ring

/-- C3 amended: whenever the engine returns, `openAreaPerTonne` equals
`pi * (finalDiameter / 2) ^ 2 * totalHoles / dryMealThroughput` (with no guard
on the sign of the denominator), and a zero throughput makes the run fail with
a division error rather than emit 0. -/
theorem openAreaPerTonne_spec_amended (p : DieParameters) :
    (∀ m, computeMetrics p = some m →
      m.openAreaPerTonne =
        Real.pi * (p.finalDiameter / 2) ^ 2 * p.totalHoles / p.dryMealThroughput) ∧
    (p.dryMealThroughput = 0 → computeMetrics p = none) := by
  constructor
  · intro m h
    have hm := computeMetrics_some h
    subst hm
    simp [metricsOf, open_area_per_tonne, total_open_area, open_area_one_hole]
  · intro h0
    simp [computeMetrics, h0]

/-- Witness for the amended C3, at a successful input and at a zero-throughput
input. -/
theorem openAreaPerTonne_spec_amended_witness :
    (computeMetrics exampleParams = some (metricsOf exampleParams) ∧
      (metricsOf exampleParams).openAreaPerTonne =
        Real.pi * (exampleParams.finalDiameter / 2) ^ 2 * exampleParams.totalHoles /
          exampleParams.dryMealThroughput) ∧
    (zeroThroughputParams.dryMealThroughput = 0 ∧
      computeMetrics zeroThroughputParams = none) := by
  have h : computeMetrics exampleParams = some (metricsOf exampleParams) := by
    norm_num [computeMetrics, exampleParams, holes_per_row]
  exact ⟨⟨h, (openAreaPerTonne_spec_amended exampleParams).1 _ h⟩,
    rfl, (openAreaPerTonne_spec_amended zeroThroughputParams).2 rfl⟩

/-- Parameter set with a negative throughput denominator and two rows. -/
noncomputable def negDenomParams : DieParameters where
  pelletSize := 5
  dryMealThroughput := -2
  plateThickness := 20
  finalDiameter := 2
  coneDiameter := 6
  channelLength := 10
  totalHoles := 4
  numberOfRows := 2
  pcdValues := [100, 200]

/-- Parameter set with fewer holes than rows, so the uniform per-row count is
0 and the row-spacing division fails. -/
noncomputable def fewHolesParams : DieParameters where
  pelletSize := 5
  dryMealThroughput := 10
  plateThickness := 20
  finalDiameter := 2
  coneDiameter := 6
  channelLength := 10
  totalHoles := 3
  numberOfRows := 5
  pcdValues := [100]

/-- Counterexample to C6: at `dryMealThroughput = -2 < 0` the unguarded
division in `open_area_per_tonne` has a negative denominator, yet the engine
returns full metrics instead of failing. -/
theorem divisionFailure_cex :
    negDenomParams.dryMealThroughput < 0 ∧
    computeMetrics negDenomParams = some (metricsOf negDenomParams) := by
  constructor
  · norm_num [negDenomParams]
  · norm_num [computeMetrics, negDenomParams, holes_per_row]

/-- C6 amended: the engine fails (with a division error) whenever an unguarded
division meets a zero denominator: a zero-hole row (from
`totalHoles < numberOfRows` with at least one row present) or a zero
throughput; a negative denominator is divided through instead. -/
theorem divisionFailure_spec_amended (p : DieParameters) :
    (p.totalHoles < p.numberOfRows → p.pcdValues ≠ [] → computeMetrics p = none) ∧
    (p.dryMealThroughput = 0 → computeMetrics p = none) := by
  constructor
  · intro hlt hne
    have h0 : holes_per_row p = 0 := Nat.div_eq_of_lt hlt
    simp [computeMetrics, h0, hne]
  · intro h0
    simp [computeMetrics, h0]

/-- Witness for the amended C6: 3 holes in 5 rows makes the engine fail. -/
theorem divisionFailure_spec_amended_witness :
    fewHolesParams.totalHoles < fewHolesParams.numberOfRows ∧
    fewHolesParams.pcdValues ≠ [] ∧
    computeMetrics fewHolesParams = none := by
  refine ⟨by norm_num [fewHolesParams], by simp [fewHolesParams],
    (divisionFailure_spec_amended fewHolesParams).1 (by norm_num [fewHolesParams])
      (by simp [fewHolesParams])⟩

/-- Sum of a constant-valued map counts the list length. -/
lemma sum_map_const_nat {α : Type} (l : List α) (n : ℕ) :
    (l.map fun _ => n).sum = l.length * n := by
  induction l with
  | nil => simp
  | cons a t ih => simp [ih, Nat.succ_mul, Nat.add_comm]

/-- C4: in the uniform-row variant the per-row count is floor division
`totalHoles / numberOfRows`, and the layout draws exactly
`numberOfRows * (totalHoles / numberOfRows)` holes in total, silently dropping
any remainder. -/
theorem holesPerRow_floor_spec (p : DieParameters) (m : DieMetrics)
    (h : computeMetrics p = some m) (hrows : p.pcdValues.length = p.numberOfRows)
    (h1 : 1 ≤ p.totalHoles) (h2 : 1 ≤ p.numberOfRows) :
    m.holesPerRow = p.totalHoles / p.numberOfRows ∧
    (buildRingLayout p).length = p.numberOfRows * (p.totalHoles / p.numberOfRows) := by
  have hm := computeMetrics_some h
  subst hm
  refine ⟨rfl, ?_⟩
  have hlen : ∀ d : ℝ, (ring_row d (holes_per_row p)).length = holes_per_row p := by
    intro d
    simp [ring_row]
  calc (buildRingLayout p).length
      = ((p.pcdValues.map fun pcd => ring_row pcd (holes_per_row p)).map List.length).sum := by
        simp [buildRingLayout, List.length_flatten]
    _ = (p.pcdValues.map fun _ => holes_per_row p).sum := by
        rw [List.map_map]
        simp [Function.comp_def, hlen]
    _ = p.pcdValues.length * holes_per_row p := sum_map_const_nat _ _
    _ = p.numberOfRows * (p.totalHoles / p.numberOfRows) := by
        rw [hrows]
        rfl

/-- Parameter set with three consistent rows; 32 holes in 3 rows floors to 10
per row, dropping 2. -/
noncomputable def threeRowParams : DieParameters where
  pelletSize := 5
  dryMealThroughput := 10
  plateThickness := 20
  finalDiameter := 3
  coneDiameter := 6
  channelLength := 5
  totalHoles := 32
  numberOfRows := 3
  pcdValues := [200, 100, 300]

/-- Witness for C4: 32 holes in 3 rows, 30 drawn. -/
theorem holesPerRow_floor_spec_witness :
    computeMetrics threeRowParams = some (metricsOf threeRowParams) ∧
    threeRowParams.pcdValues.length = threeRowParams.numberOfRows ∧
    1 ≤ threeRowParams.totalHoles ∧ 1 ≤ threeRowParams.numberOfRows ∧
    ((metricsOf threeRowParams).holesPerRow =
        threeRowParams.totalHoles / threeRowParams.numberOfRows ∧
      (buildRingLayout threeRowParams).length =
        threeRowParams.numberOfRows *
          (threeRowParams.totalHoles / threeRowParams.numberOfRows)) := by
  have h : computeMetrics threeRowParams = some (metricsOf threeRowParams) := by
    norm_num [computeMetrics, threeRowParams, holes_per_row]
  exact ⟨h, rfl, by norm_num [threeRowParams], by norm_num [threeRowParams],
    holesPerRow_floor_spec threeRowParams (metricsOf threeRowParams) h rfl
      (by norm_num [threeRowParams]) (by norm_num [threeRowParams])⟩

/-- C5: with at least one hole per row, the returned `rowSpacing` list is
aligned with the row list and its `i`-th entry is
`2 * pi * (pcd_i / 2) / holesPerRow - finalDiameter`. -/
theorem rowSpacing_spec (p : DieParameters) (m : DieMetrics)
    (h : computeMetrics p = some m) (hn : 1 ≤ holes_per_row p) :
    m.rowSpacing.length = p.pcdValues.length ∧
    ∀ i (h1 : i < m.rowSpacing.length) (h2 : i < p.pcdValues.length),
      m.rowSpacing.get ⟨i, h1⟩ =
        2 * Real.pi * (p.pcdValues.get ⟨i, h2⟩ / 2) / (holes_per_row p : ℝ) -
          p.finalDiameter := by
  have hm := computeMetrics_some h
  subst hm
  refine ⟨by simp [metricsOf, space_between_holes_list], ?_⟩
  intro i h1 h2
  simp [metricsOf, space_between_holes_list, List.get_eq_getElem]

/-- Witness for C5 at the three-row parameter set (10 holes per row). -/
theorem rowSpacing_spec_witness :
    computeMetrics threeRowParams = some (metricsOf threeRowParams) ∧
    1 ≤ holes_per_row threeRowParams ∧
    ((metricsOf threeRowParams).rowSpacing.length =
        threeRowParams.pcdValues.length ∧
      ∀ i (h1 : i < (metricsOf threeRowParams).rowSpacing.length)
        (h2 : i < threeRowParams.pcdValues.length),
        (metricsOf threeRowParams).rowSpacing.get ⟨i, h1⟩ =
          2 * Real.pi * (threeRowParams.pcdValues.get ⟨i, h2⟩ / 2) /
              (holes_per_row threeRowParams : ℝ) -
            threeRowParams.finalDiameter) := by
  have h : computeMetrics threeRowParams = some (metricsOf threeRowParams) := by
    norm_num [computeMetrics, threeRowParams, holes_per_row]
  have hn : 1 ≤ holes_per_row threeRowParams := by
    norm_num [holes_per_row, threeRowParams]
  exact ⟨h, hn, rowSpacing_spec threeRowParams (metricsOf threeRowParams) h hn⟩

/-- C7: with a positive cone length every cone depth sample lies in
`[0, coneLength]` and the sampled cone radius is the linear interpolation
`coneDiameter/2 - (coneDiameter - finalDiameter)/2 * (z / coneLength)`; with a
non-positive cone length the guard yields the constant radius
`finalDiameter/2` with no division; the channel radius is the constant
`finalDiameter/2` at every sample. -/
theorem revolutionMesh_spec (p : DieParameters) :
    (r_cone p).length = 30 ∧ (z_cone p).length = 30 ∧
    (0 < cone_length p →
      (∀ i (h1 : i < (r_cone p).length) (h2 : i < (z_cone p).length),
        (r_cone p).get ⟨i, h1⟩ =
          p.coneDiameter / 2 -
            (p.coneDiameter - p.finalDiameter) / 2 *
              ((z_cone p).get ⟨i, h2⟩ / cone_length p)) ∧
      ∀ z ∈ z_cone p, 0 ≤ z ∧ z ≤ cone_length p) ∧
    (cone_length p ≤ 0 → r_cone p = List.replicate 30 (p.finalDiameter / 2)) ∧
    r_channel p = List.replicate 10 (p.finalDiameter / 2) := by
  refine ⟨?_, by rw [z_cone, linspace, List.length_map, List.length_range], ?_, ?_, rfl⟩
  · rw [r_cone]
    split
    · rw [List.length_map, z_cone, linspace, List.length_map, List.length_range]
    · rw [List.length_replicate]
  · intro hL
    have heq : r_cone p = (z_cone p).map fun z =>
        p.coneDiameter / 2 - (p.coneDiameter - p.finalDiameter) / 2 * (z / cone_length p) := by
      rw [r_cone, if_pos hL]
    constructor
    · intro i h1 h2
      simp only [List.get_eq_getElem]
      rw [List.getElem_of_eq heq h1, List.getElem_map]
    · intro z hz
      rw [z_cone, linspace] at hz
      obtain ⟨i, hi, rfl⟩ := List.mem_map.mp hz
      rw [List.mem_range] at hi
      have hi29 : (i : ℝ) ≤ 29 := by
        exact_mod_cast Nat.lt_succ_iff.mp hi
      have h29 : ((30 : ℕ) : ℝ) - 1 = 29 := by norm_num
      constructor
      · rw [zero_add, sub_zero, h29]
        exact div_nonneg (mul_nonneg hL.le (Nat.cast_nonneg i)) (by norm_num)
      · rw [zero_add, sub_zero, h29, div_le_iff₀ (by norm_num : (0 : ℝ) < 29)]
        exact mul_le_mul_of_nonneg_left hi29 hL.le
  · intro hL
    rw [r_cone, if_neg (not_lt.mpr hL)]

/-- Witness for C7 at the worked parameter set (cone length 10 > 0). -/
theorem revolutionMesh_spec_witness :
    0 < cone_length exampleParams ∧
    ((r_cone exampleParams).length = 30 ∧ (z_cone exampleParams).length = 30 ∧
      (0 < cone_length exampleParams →
        (∀ i (h1 : i < (r_cone exampleParams).length)
          (h2 : i < (z_cone exampleParams).length),
          (r_cone exampleParams).get ⟨i, h1⟩ =
            exampleParams.coneDiameter / 2 -
              (exampleParams.coneDiameter - exampleParams.finalDiameter) / 2 *
                ((z_cone exampleParams).get ⟨i, h2⟩ / cone_length exampleParams)) ∧
        ∀ z ∈ z_cone exampleParams, 0 ≤ z ∧ z ≤ cone_length exampleParams) ∧
      (cone_length exampleParams ≤ 0 →
        r_cone exampleParams = List.replicate 30 (exampleParams.finalDiameter / 2)) ∧
      r_channel exampleParams = List.replicate 10 (exampleParams.finalDiameter / 2)) := by
  refine ⟨by norm_num [cone_length, exampleParams], revolutionMesh_spec exampleParams⟩

/-- C8: a ring row of `n ≥ 1` holes on pitch diameter `d ≥ 0` has its `i`-th
centre at `((d/2) cos (2 pi i / n), (d/2) sin (2 pi i / n))`, every centre at
Euclidean distance `d/2` from the origin, the first hole at angle 0, and
consecutive angles exactly `2 pi / n` apart. -/
theorem ringLayout_spec (d : ℝ) (n : ℕ) (hn : 1 ≤ n) (hd : 0 ≤ d) :
    (ring_row d n).length = n ∧
    (∀ i (h1 : i < (ring_row d n).length),
      (ring_row d n).get ⟨i, h1⟩ =
        ((d / 2) * Real.cos (2 * Real.pi * i / n),
         (d / 2) * Real.sin (2 * Real.pi * i / n))) ∧
    (∀ i (h1 : i < (ring_row d n).length),
      Real.sqrt (((ring_row d n).get ⟨i, h1⟩).1 ^ 2 +
          ((ring_row d n).get ⟨i, h1⟩).2 ^ 2) = d / 2) ∧
    ring_angle n 0 = 0 ∧
    (∀ i : ℕ, ring_angle n (i + 1) - ring_angle n i = 2 * Real.pi / n) := by
  have hn0 : (n : ℝ) ≠ 0 := Nat.cast_ne_zero.mpr (by omega)
  refine ⟨by simp [ring_row], ?_, ?_, by simp [ring_angle], ?_⟩
  · intro i h1
    simp [ring_row, ring_angle, List.get_eq_getElem]
  · intro i h1
    have hgc : (ring_row d n).get ⟨i, h1⟩ =
        ((d / 2) * Real.cos (ring_angle n i), (d / 2) * Real.sin (ring_angle n i)) := by
      simp [ring_row, List.get_eq_getElem]
    rw [hgc]
    have hpyth := Real.sin_sq_add_cos_sq (ring_angle n i)
    have hsq : ((d / 2) * Real.cos (ring_angle n i)) ^ 2 +
        ((d / 2) * Real.sin (ring_angle n i)) ^ 2 = (d / 2) ^ 2 := by
      nlinarith [hpyth]
    rw [hsq, Real.sqrt_sq (by linarith : (0 : ℝ) ≤ d / 2)]
  · intro i
    simp only [ring_angle]
    push_cast
    field_simp
    ring

/-- Witness for C8: 10 holes on pitch diameter 100. -/
theorem ringLayout_spec_witness :
    (1 ≤ 10) ∧ ((0 : ℝ) ≤ 100) ∧
    ((ring_row (100 : ℝ) 10).length = 10 ∧
      (∀ i (h1 : i < (ring_row (100 : ℝ) 10).length),
        (ring_row (100 : ℝ) 10).get ⟨i, h1⟩ =
          (((100 : ℝ) / 2) * Real.cos (2 * Real.pi * i / 10),
           ((100 : ℝ) / 2) * Real.sin (2 * Real.pi * i / 10))) ∧
      (∀ i (h1 : i < (ring_row (100 : ℝ) 10).length),
        Real.sqrt (((ring_row (100 : ℝ) 10).get ⟨i, h1⟩).1 ^ 2 +
            ((ring_row (100 : ℝ) 10).get ⟨i, h1⟩).2 ^ 2) = (100 : ℝ) / 2) ∧
      ring_angle 10 0 = 0 ∧
      (∀ i : ℕ, ring_angle 10 (i + 1) - ring_angle 10 i = 2 * Real.pi / 10)) :=
  ⟨by norm_num, by norm_num,
    ringLayout_spec 100 10 (by norm_num) (by norm_num)⟩

/-- Last element of a list with a default is a member of the default-headed
list. -/
lemma getLastD_mem {α : Type} (l : List α) (a : α) : l.getLastD a ∈ a :: l := by
  induction l generalizing a with
  | nil => simp
  | cons b t ih =>
    rw [List.getLastD_cons]
    exact List.mem_cons_of_mem a (ih b)

/-- Head of a list sorted by `≤` bounds every element from below. -/
lemma sorted_head_le {a : ℝ} {l : List ℝ} (hs : List.Sorted (· ≤ ·) (a :: l)) :
    ∀ x ∈ a :: l, a ≤ x := by
  intro x hx
  rcases List.mem_cons.mp hx with rfl | hx'
  · exact le_rfl
  · exact (List.sorted_cons.mp hs).1 x hx'

/-- Last element of a list sorted by `≤` bounds every element from above. -/
lemma sorted_le_getLastD : ∀ {a : ℝ} {l : List ℝ},
    List.Sorted (· ≤ ·) (a :: l) → ∀ x ∈ a :: l, x ≤ l.getLastD a := by
  intro a l
  induction l generalizing a with
  | nil =>
    intro hs x hx
    simp only [List.mem_singleton] at hx
    subst hx
    simp
  | cons b t ih =>
    intro hs x hx
    rw [List.getLastD_cons]
    have hs' : List.Sorted (· ≤ ·) (b :: t) := (List.sorted_cons.mp hs).2
    rcases List.mem_cons.mp hx with rfl | hx'
    · have hab : x ≤ b := (List.sorted_cons.mp hs).1 b (List.mem_cons_self b t)
      exact hab.trans (ih hs' b (List.mem_cons_self b t))
    · exact ih hs' x hx'

/-- Telescoping: consecutive differences sum to last minus first. -/
lemma diffList_sum : ∀ (l : List ℝ) (a : ℝ),
    (diffList (a :: l)).sum = l.getLastD a - a := by
  intro l
  induction l with
  | nil =>
    intro a
    simp [diffList]
  | cons b t ih =>
    intro a
    have hstep : diffList (a :: b :: t) = (b - a) :: diffList (b :: t) := by
      simp [diffList]
    rw [hstep, List.sum_cons, ih b, List.getLastD_cons]
    ring

/-- `np.diff` shortens a list by one. -/
lemma diffList_length (l : List ℝ) : (diffList l).length = l.length - 1 := by
  rw [diffList, List.length_zipWith, List.length_tail]
  omega

/-- Sorting-based row gap is invariant under permutation of the input list. -/
lemma space_between_rows_perm {l l' : List ℝ} (h : l.Perm l') :
    space_between_rows l = space_between_rows l' := by
  have hsort : l.insertionSort (· ≤ ·) = l'.insertionSort (· ≤ ·) :=
    List.eq_of_perm_of_sorted
      ((List.perm_insertionSort _ l).trans (h.trans (List.perm_insertionSort _ l').symm))
      (List.sorted_insertionSort _ l) (List.sorted_insertionSort _ l')
  rw [space_between_rows, space_between_rows, h.length_eq, hsort]

/-- Mean of differences of the sorted list is the range over the count of
gaps. -/
lemma space_between_rows_eq {l : List ℝ} {M m : ℝ} (h2 : 2 ≤ l.length)
    (hM : M ∈ l) (hm : m ∈ l) (hMb : ∀ x ∈ l, x ≤ M) (hmb : ∀ x ∈ l, m ≤ x) :
    space_between_rows l = (M - m) / ((l.length : ℝ) - 1) := by
  have hperm0 : (l.insertionSort (· ≤ ·)).Perm l := List.perm_insertionSort _ l
  have hne : l.insertionSort (· ≤ ·) ≠ [] := by
    have hpos : 0 < (l.insertionSort (· ≤ ·)).length := by
      rw [hperm0.length_eq]
      omega
    exact List.length_pos.mp hpos
  obtain ⟨a, t, hat⟩ := List.exists_cons_of_ne_nil hne
  have hperm : (a :: t).Perm l := hat ▸ hperm0
  have hsorted : List.Sorted (· ≤ ·) (a :: t) := hat ▸ List.sorted_insertionSort _ l
  have hmem : ∀ x : ℝ, x ∈ a :: t ↔ x ∈ l := fun x => hperm.mem_iff
  have ham : a = m :=
    le_antisymm (sorted_head_le hsorted m ((hmem m).mpr hm))
      (hmb a ((hmem a).mp (List.mem_cons_self a t)))
  have hMt : t.getLastD a = M :=
    le_antisymm (hMb _ ((hmem _).mp (getLastD_mem t a)))
      (sorted_le_getLastD hsorted M ((hmem M).mpr hM))
  have h1l : 1 < l.length := by omega
  have hlt : (a :: t).length = l.length := hperm.length_eq
  rw [space_between_rows, if_pos h1l, hat, diffList_sum, diffList_length]
  have hnum : t.getLastD a - a = M - m := by rw [hMt, ham]
  rw [hnum]
  have hcast : (((a :: t).length - 1 : ℕ) : ℝ) = (l.length : ℝ) - 1 := by
    rw [hlt, Nat.cast_sub (by omega : 1 ≤ l.length), Nat.cast_one]
  rw [hcast]

/-- C10: with at least two rows the returned `rowPitchGap` is the mean of
consecutive differences of the sorted PCD list, which equals
`(max PCD - min PCD) / (numberOfRows - 1)` and is invariant under any
permutation of the rows; with fewer than two rows it is 0. -/
theorem rowPitchGap_spec (p : DieParameters) (mt : DieMetrics)
    (h : computeMetrics p = some mt) (hrows : p.pcdValues.length = p.numberOfRows) :
    (2 ≤ p.numberOfRows →
      ∀ M m, M ∈ p.pcdValues → m ∈ p.pcdValues →
        (∀ x ∈ p.pcdValues, x ≤ M) → (∀ x ∈ p.pcdValues, m ≤ x) →
        mt.rowPitchGap = (M - m) / ((p.numberOfRows : ℝ) - 1)) ∧
    (∀ q mq, computeMetrics q = some mq → p.pcdValues.Perm q.pcdValues →
      mt.rowPitchGap = mq.rowPitchGap) ∧
    (p.numberOfRows < 2 → mt.rowPitchGap = 0) := by
  have hmt := computeMetrics_some h
  subst hmt
  refine ⟨?_, ?_, ?_⟩
  · intro h2 M m hM hm' hMb hmb
    have hlen : 2 ≤ p.pcdValues.length := by omega
    have := space_between_rows_eq hlen hM hm' hMb hmb
    simp only [metricsOf] at this ⊢
    rw [this, hrows]
  · intro q mq hq hperm
    have hmq := computeMetrics_some hq
    subst hmq
    simp only [metricsOf]
    exact space_between_rows_perm hperm
  · intro hlt
    have hsmall : ¬ 1 < p.pcdValues.length := by omega
    simp only [metricsOf]
    rw [space_between_rows, if_neg hsmall]

/-- Witness for C10: rows with PCDs 200, 100, 300 give gap (300-100)/2. -/
theorem rowPitchGap_spec_witness :
    computeMetrics threeRowParams = some (metricsOf threeRowParams) ∧
    threeRowParams.pcdValues.length = threeRowParams.numberOfRows ∧
    2 ≤ threeRowParams.numberOfRows ∧
    (300 : ℝ) ∈ threeRowParams.pcdValues ∧
    (100 : ℝ) ∈ threeRowParams.pcdValues ∧
    (∀ x ∈ threeRowParams.pcdValues, x ≤ 300) ∧
    (∀ x ∈ threeRowParams.pcdValues, 100 ≤ x) ∧
    (metricsOf threeRowParams).rowPitchGap =
      ((300 : ℝ) - 100) / ((threeRowParams.numberOfRows : ℝ) - 1) := by
  have h : computeMetrics threeRowParams = some (metricsOf threeRowParams) := by
    norm_num [computeMetrics, threeRowParams, holes_per_row]
  have h2 : 2 ≤ threeRowParams.numberOfRows := by norm_num [threeRowParams]
  have hM : (300 : ℝ) ∈ threeRowParams.pcdValues := by
    simp [threeRowParams]
  have hm : (100 : ℝ) ∈ threeRowParams.pcdValues := by
    simp [threeRowParams]
  have hMb : ∀ x ∈ threeRowParams.pcdValues, x ≤ 300 := by
    intro x hx
    simp [threeRowParams] at hx
    rcases hx with rfl | rfl | rfl <;> norm_num
  have hmb : ∀ x ∈ threeRowParams.pcdValues, (100 : ℝ) ≤ x := by
    intro x hx
    simp [threeRowParams] at hx
    rcases hx with rfl | rfl | rfl <;> norm_num
  exact ⟨h, rfl, h2, hM, hm, hMb, hmb,
    (rowPitchGap_spec threeRowParams (metricsOf threeRowParams) h rfl).1 h2
      300 100 hM hm hMb hmb⟩

/-- C9: for every input, `buildProfile` is the closed six-vertex polygon
`(-coneDiameter/2, 0)`, `(-finalDiameter/2, coneLength)`,
`(-finalDiameter/2, plateThickness)`, `(finalDiameter/2, plateThickness)`,
`(finalDiameter/2, coneLength)`, `(coneDiameter/2, 0)` in that order, with
`coneLength = plateThickness - channelLength`, plus the channel rectangle of
origin `(-finalDiameter/2, coneLength)`, width `finalDiameter` and height
`channelLength`. -/
theorem profile_spec (p : DieParameters) :
    buildProfile p =
      ([(-p.coneDiameter / 2, 0),
        (-p.finalDiameter / 2, p.plateThickness - p.channelLength),
        (-p.finalDiameter / 2, p.plateThickness),
        (p.finalDiameter / 2, p.plateThickness),
        (p.finalDiameter / 2, p.plateThickness - p.channelLength),
        (p.coneDiameter / 2, 0)],
       ((-p.finalDiameter / 2, p.plateThickness - p.channelLength),
        p.finalDiameter, p.channelLength)) := by
  rfl

end DiePlate
